import Mathlib

/-!
# EWS-Monitor-Frontend — verification of the spreadsheet-ingestion pipeline

Shallow embedding of the client-side ingestion / fuzzy-matching / reconciliation
code of the EWS Monitor frontend (the two upload/table pages), together with
theorems settling the frozen claims about it.

Conventions of the embedding:
* JS numbers are modelled as `ℚ` (the code performs no float-specific tricks
  on the paths under study); machine integers do not occur.
* JS strings are Lean `String`s; the handful of string primitives the code
  uses (`trim`, `toLowerCase`, `includes`, `startsWith`, `padStart`,
  `split`) are defined below on `List Char` so they can be reasoned about.
* Fallible JS code (paths that can throw) returns `Except`; code that cannot
  throw is a plain function.
* `localStorage`, the remote store, `Math.random` identifiers and `Fuse`
  search results are passed in explicitly (stores as values, the id supply as
  a counter, search results as an argument list), so every definition stays
  executable.
-/

namespace EWS

/-! ## String primitives (JS semantics) -/

/-- JS whitespace test used by `String.prototype.trim` (ASCII fragment). -/
def jsWs (c : Char) : Bool := c.isWhitespace

/-- Trim whitespace from both ends of a character list (JS `trim`). -/
def trimChars (l : List Char) : List Char :=
  ((l.dropWhile jsWs).reverse.dropWhile jsWs).reverse

/-- JS `String.prototype.trim`. -/
def jsTrim (s : String) : String := ⟨trimChars s.data⟩

/-- JS `String.prototype.toLowerCase` (ASCII fragment). -/
def jsLower (s : String) : String := ⟨s.data.map Char.toLower⟩

/-- `needle` occurs at the start of `hay` (JS `startsWith`). -/
def hasPre : List Char → List Char → Bool
  | [], _ => true
  | _ :: _, [] => false
  | a :: n, b :: h => a == b && hasPre n h

/-- `needle` occurs somewhere inside `hay` (JS `includes`). -/
def hasSub (needle : List Char) : List Char → Bool
  | [] => hasPre needle []
  | b :: t => hasPre needle (b :: t) || hasSub needle t

/-- JS `hay.includes(needle)`. -/
def jsIncludes (hay needle : String) : Bool := hasSub needle.data hay.data

/-- JS `s.startsWith(p)`. -/
def jsStartsWith (s p : String) : Bool := hasPre p.data s.data

/-- Number of non-whitespace characters of a string. -/
def nonWsCount (s : String) : Nat := (s.data.filter (fun c => !jsWs c)).length

/-! ## JS values

A small universe of JS cell values, used where the code stores
heterogeneous spreadsheet cells. -/

inductive JVal where
  | str (s : String)
  | num (q : ℚ)
  | boolv (b : Bool)
  | nullv
  | undefv
deriving DecidableEq, Repr

/-! ## C9 — `normalizeSeverity` (UploadFrameworkTable.tsx lines 39–49)

```js
function normalizeSeverity(v) {
  if (typeof v !== "string") return v;
  const s = v.trim().toLowerCase();
  if (s.startsWith("h")) return "High";
  if (s.startsWith("m")) return "Medium";
  if (s.startsWith("l")) return "Low";
  if (s === "3" || s === "high") return "High";
  if (s === "2" || s === "medium") return "Medium";
  if (s === "1" || s === "low") return "Low";
  return v;
}
```
-/

def normalizeSeverity (v : JVal) : JVal :=
  match v with
  | .str sv =>
    let s := jsLower (jsTrim sv)
    if jsStartsWith s "h" then .str "High"
    else if jsStartsWith s "m" then .str "Medium"
    else if jsStartsWith s "l" then .str "Low"
    else if s == "3" || s == "high" then .str "High"
    else if s == "2" || s == "medium" then .str "Medium"
    else if s == "1" || s == "low" then .str "Low"
    else v
  | _ => v

/-- C9. Severity normalization maps the trimmed strings "1", "2", "3" to
"Low", "Medium", "High"; every non-string is returned unchanged; and every
string whose trimmed, lowercased form neither starts with `h`/`m`/`l` nor is
one of the digits "1"/"2"/"3" is returned unchanged. -/
theorem c9_severity_normalization (v : JVal) (s : String) :
    (jsTrim s = "1" → normalizeSeverity (.str s) = .str "Low") ∧
    (jsTrim s = "2" → normalizeSeverity (.str s) = .str "Medium") ∧
    (jsTrim s = "3" → normalizeSeverity (.str s) = .str "High") ∧
    ((∀ t : String, v ≠ .str t) → normalizeSeverity v = v) ∧
    (jsStartsWith (jsLower (jsTrim s)) "h" = false →
     jsStartsWith (jsLower (jsTrim s)) "m" = false →
     jsStartsWith (jsLower (jsTrim s)) "l" = false →
     jsLower (jsTrim s) ≠ "1" → jsLower (jsTrim s) ≠ "2" → jsLower (jsTrim s) ≠ "3" →
     normalizeSeverity (.str s) = .str s) := by
  refine ⟨?_, ?_, ?_, ?_, ?_⟩
  · intro h
    have hs : jsLower (jsTrim s) = "1" := by rw [h]; rfl
    simp [normalizeSeverity, hs]
    decide
  · intro h
    have hs : jsLower (jsTrim s) = "2" := by rw [h]; rfl
    simp [normalizeSeverity, hs]
    decide
  · intro h
    have hs : jsLower (jsTrim s) = "3" := by rw [h]; rfl
    simp [normalizeSeverity, hs]
    decide
  · intro hv
    cases v with
    | str t => exact absurd rfl (hv t)
    | num q => rfl
    | boolv b => rfl
    | nullv => rfl
    | undefv => rfl
  · intro h1 h2 h3 h4 h5 h6
    have hhigh : jsLower (jsTrim s) ≠ "high" := by
      intro he; rw [he] at h1; exact absurd h1 (by decide)
    have hmed : jsLower (jsTrim s) ≠ "medium" := by
      intro he; rw [he] at h2; exact absurd h2 (by decide)
    have hlow : jsLower (jsTrim s) ≠ "low" := by
      intro he; rw [he] at h3; exact absurd h3 (by decide)
    simp [normalizeSeverity, h1, h2, h3, h4, h5, h6, hhigh, hmed, hlow]

/-- Witness for C9 at concrete inputs. -/
theorem c9_severity_normalization_witness :
    normalizeSeverity (.str " 2 ") = .str "Medium" ∧
    normalizeSeverity (.num 5) = .num 5 ∧
    normalizeSeverity (.str "xyz") = .str "xyz" :=
  ⟨(c9_severity_normalization (.num 5) " 2 ").2.1 (by decide),
   (c9_severity_normalization (.num 5) " 2 ").2.2.2.1 (fun t h => by simp at h),
   (c9_severity_normalization (.num 5) "xyz").2.2.2.2 (by decide) (by decide)
     (by decide) (by decide) (by decide) (by decide)⟩

/-! ## Non-whitespace count vs trimmed length

The import code guards fuzzy matching with `change_reported.trim().length > 1`;
the claims speak of "at least 2 non-whitespace characters".  These helper
lemmas show the two conditions agree. -/

/-- Non-whitespace character count of a character list. -/
def nonwsL (l : List Char) : Nat := (l.filter (fun c => !jsWs c)).length

theorem filter_dropWhile_nonws (l : List Char) :
    (l.dropWhile jsWs).filter (fun c => !jsWs c) = l.filter (fun c => !jsWs c) := by
  induction l with
  | nil => rfl
  | cons a t ih =>
    by_cases ha : jsWs a
    · simp [List.dropWhile_cons, ha, List.filter_cons, ih]
    · simp [List.dropWhile_cons, ha, List.filter_cons]

theorem nonwsL_dropWhile (l : List Char) : nonwsL (l.dropWhile jsWs) = nonwsL l := by
  simp [nonwsL, filter_dropWhile_nonws]

theorem nonwsL_reverse (l : List Char) : nonwsL l.reverse = nonwsL l := by
  simp [nonwsL, List.filter_reverse]

theorem nonwsL_trimChars (l : List Char) : nonwsL (trimChars l) = nonwsL l := by
  simp [trimChars, nonwsL_reverse, nonwsL_dropWhile]

theorem head?_dropWhile_ws (l : List Char) (a : Char) :
    (l.dropWhile jsWs).head? = some a → jsWs a = false := by
  induction l with
  | nil => intro h; simp at h
  | cons b t ih =>
    by_cases hb : jsWs b
    · simpa [List.dropWhile_cons, hb] using ih
    · intro h
      simp [List.dropWhile_cons, hb] at h
      subst h
      simpa using hb

theorem getLast?_dropWhile_ws (l : List Char) (h : l.dropWhile jsWs ≠ []) :
    (l.dropWhile jsWs).getLast? = l.getLast? := by
  induction l with
  | nil => simp at h
  | cons a t ih =>
    by_cases ha : jsWs a
    · rw [List.dropWhile_cons, if_pos ha] at h ⊢
      cases t with
      | nil => simp at h
      | cons b t' => rw [ih h, List.getLast?_cons_cons]
    · rw [List.dropWhile_cons, if_neg ha]

theorem mem_of_getLast?_eq (l : List Char) (b : Char) (h : l.getLast? = some b) : b ∈ l := by
  induction l with
  | nil => simp at h
  | cons a t ih =>
    cases t with
    | nil => simp at h; simp [h]
    | cons c t' =>
      rw [List.getLast?_cons_cons] at h
      exact List.mem_cons_of_mem a (ih h)

theorem two_le_nonwsL_of_ends (t : List Char) (a b : Char)
    (hlen : 2 ≤ t.length) (hhd : t.head? = some a) (ha : jsWs a = false)
    (hlast : t.getLast? = some b) (hb : jsWs b = false) : 2 ≤ nonwsL t := by
  cases t with
  | nil => simp at hhd
  | cons x rest =>
    have hx : x = a := by simpa using hhd
    cases rest with
    | nil => simp at hlen
    | cons c rest' =>
      rw [List.getLast?_cons_cons] at hlast
      have hbmem : b ∈ c :: rest' := mem_of_getLast?_eq _ _ hlast
      have hbf : b ∈ (c :: rest').filter (fun c => !jsWs c) :=
        List.mem_filter.mpr ⟨hbmem, by simp [hb]⟩
      have h1 : 1 ≤ nonwsL (c :: rest') := by
        have := List.length_pos.mpr (List.ne_nil_of_mem hbf)
        simpa [nonwsL] using this
      have : nonwsL (x :: c :: rest') = 1 + nonwsL (c :: rest') := by
        simp [nonwsL, List.filter_cons, hx, ha, Nat.add_comm]
      omega

theorem trimChars_len_le_one (l : List Char) (h : nonwsL l ≤ 1) :
    (trimChars l).length ≤ 1 := by
  by_contra hgt
  have h2 : 2 ≤ (trimChars l).length := by omega
  set m := l.dropWhile jsWs with hm
  set w := m.reverse.dropWhile jsWs with hw
  have htw : trimChars l = w.reverse := rfl
  have hwne : w ≠ [] := by
    intro hnil
    rw [htw, hnil] at h2; simp at h2
  -- last of the trimmed list = head of w, which dropWhile made non-whitespace
  obtain ⟨b, hb⟩ : ∃ b, w.head? = some b := by
    cases hcase : w with
    | nil => exact absurd hcase hwne
    | cons y ys => exact ⟨y, by simp [hcase]⟩
  have hbws : jsWs b = false := head?_dropWhile_ws m.reverse b (by rw [← hw]; exact hb)
  have hlast : (trimChars l).getLast? = some b := by
    rw [htw, List.getLast?_reverse, hb]
  -- head of the trimmed list = last of w = last of m.reverse = head of m
  have hmne : m ≠ [] := by
    intro hnil
    rw [hnil] at hw
    simp at hw
    exact hwne hw
  obtain ⟨a, hahd⟩ : ∃ a, m.head? = some a := by
    cases hcase : m with
    | nil => exact absurd hcase hmne
    | cons y ys => exact ⟨y, by simp [hcase]⟩
  have haws : jsWs a = false := head?_dropWhile_ws l a (by rw [← hm]; exact hahd)
  have hhd : (trimChars l).head? = some a := by
    rw [htw, List.head?_reverse, hw,
      getLast?_dropWhile_ws m.reverse (by rw [← hw]; exact hwne),
      List.getLast?_reverse, hahd]
  have h2' : 2 ≤ nonwsL (trimChars l) :=
    two_le_nonwsL_of_ends (trimChars l) a b h2 hhd haws hlast hbws
  rw [nonwsL_trimChars] at h2'
  omega

/-- The import guard `s.trim().length > 1` is the same condition as
"`s` has at least 2 non-whitespace characters". -/
theorem trim_length_iff_nonWs (s : String) :
    1 < (jsTrim s).length ↔ 2 ≤ nonWsCount s := by
  have hlen : (jsTrim s).length = (trimChars s.data).length := rfl
  have hnw : nonWsCount s = nonwsL s.data := rfl
  rw [hlen, hnw]
  constructor
  · intro hgt
    by_contra hle
    have := trimChars_len_le_one s.data (by omega)
    omega
  · intro h2
    by_contra hle
    have hle1 : (trimChars s.data).length ≤ 1 := by omega
    have : nonwsL s.data ≤ 1 := by
      have hfle : nonwsL (trimChars s.data) ≤ (trimChars s.data).length := by
        simpa [nonwsL] using List.length_filter_le (fun c => !jsWs c) (trimChars s.data)
      rw [nonwsL_trimChars] at hfle
      omega
    omega

/-! ## Data model — `EwsRule` (utils/types, fields per `EDITABLE_FIELDS`) -/

/-- A normalized rule-catalog entry.  Field names follow the source
(`EDITABLE_FIELDS` of UploadFrameworkTable.tsx); `tat_days` may be blank
(the code stores `""` for a non-finite number), hence `Option`. -/
structure EwsRule where
  rule_code : String
  change_reported : String
  condition : String
  severity : String
  primary_action : String
  secondary_action : String
  tat_days : Option ℚ
  assigned_team : String
  tags : List String
deriving DecidableEq, Repr

/-! ## C1 — confidence tiers of `mapRowToEvent` (EventsVerified.tsx lines 204–227)

```js
if (fuseRef.current && ev.change_reported && String(ev.change_reported).trim().length > 1) {
  const res = fuseRef.current.search(String(ev.change_reported));
  if (Array.isArray(res) && res.length > 0) {
    const top = res[0];
    const item = top.item ?? top;
    const sc = top.score ?? null;
    if (sc !== null) {
      if (sc < 0.15)      { ev.matchedRule = item; ev.matchStatus = "matched"; ev.score = sc; }
      else if (sc < 0.35) { ev.matchedRule = item; ev.matchStatus = "low";     ev.score = sc; }
    }
  }
}
```

`ev` starts from `matchedRule: null, matchStatus: "unmatched", score: null`.
The Fuse search result is passed in as a list of `(item, score)` pairs. -/

inductive MatchStatus where
  | unmatched
  | low
  | matched
deriving DecidableEq, Repr

/-- The match-related fields of an event row. -/
structure MatchFields where
  matchedRule : Option EwsRule
  matchStatus : MatchStatus
  score : Option ℚ
deriving DecidableEq, Repr

/-- The default (no match) fields a freshly mapped row starts from. -/
def noMatch : MatchFields := ⟨none, .unmatched, none⟩

/-- The tier-classification step of `mapRowToEvent`, applied to the Fuse
search result for `changeReported`. -/
def classifyTopMatch (searchRes : List (EwsRule × Option ℚ)) (changeReported : String) :
    MatchFields :=
  if 1 < (jsTrim changeReported).length then
    match searchRes with
    | [] => noMatch
    | (item, sc?) :: _ =>
      match sc? with
      | none => noMatch
      | some sc =>
        if sc < 15/100 then ⟨some item, .matched, some sc⟩
        else if sc < 35/100 then ⟨some item, .low, some sc⟩
        else noMatch
  else noMatch

/-- C1. The tier assigned from the best fuzzy candidate's distance `d`:
`d < 0.15` gives "matched" with the candidate attached; `0.15 ≤ d < 0.35`
gives "low" with the candidate attached; `d ≥ 0.35` (no candidate within
0.35), an input with fewer than 2 non-whitespace characters, an empty result
or a missing score all give "unmatched" with no rule and no score; and every
row lands in exactly one of the three tiers. -/
theorem c1_confidence_tiers (res : List (EwsRule × Option ℚ)) (s : String)
    (item : EwsRule) (d : ℚ) :
    (nonWsCount s < 2 → classifyTopMatch res s = noMatch) ∧
    (2 ≤ nonWsCount s → res.head? = some (item, some d) →
      (d < 15/100 → classifyTopMatch res s = ⟨some item, .matched, some d⟩) ∧
      (15/100 ≤ d → d < 35/100 → classifyTopMatch res s = ⟨some item, .low, some d⟩) ∧
      (35/100 ≤ d → classifyTopMatch res s = noMatch)) ∧
    (2 ≤ nonWsCount s → res.head? = some (item, none) → classifyTopMatch res s = noMatch) ∧
    (2 ≤ nonWsCount s → res = [] → classifyTopMatch res s = noMatch) ∧
    ((classifyTopMatch res s).matchStatus = .matched ∨
     (classifyTopMatch res s).matchStatus = .low ∨
     (classifyTopMatch res s).matchStatus = .unmatched) := by
  refine ⟨?_, ?_, ?_, ?_, ?_⟩
  · intro hshort
    have : ¬ 1 < (jsTrim s).length := by
      rw [trim_length_iff_nonWs]; omega
    simp [classifyTopMatch, this]
  · intro hlong hhd
    have hl : 1 < (jsTrim s).length := (trim_length_iff_nonWs s).mpr hlong
    cases res with
    | nil => simp at hhd
    | cons p rest =>
      have hp : p = (item, some d) := by simpa using hhd
      subst hp
      refine ⟨?_, ?_, ?_⟩
      · intro hd
        simp [classifyTopMatch, hl, hd]
      · intro hd1 hd2
        simp [classifyTopMatch, hl, hd2, not_lt.mpr hd1]
      · intro hd
        have h15 : ¬ d < 15/100 := not_lt.mpr (le_trans (by norm_num : (15:ℚ)/100 ≤ 35/100) hd)
        have h35 : ¬ d < 35/100 := not_lt.mpr hd
        simp [classifyTopMatch, hl, h15, h35]
  · intro hlong hhd
    have hl : 1 < (jsTrim s).length := (trim_length_iff_nonWs s).mpr hlong
    cases res with
    | nil => simp at hhd
    | cons p rest =>
      have hp : p = (item, none) := by simpa using hhd
      subst hp
      simp [classifyTopMatch, hl]
  · intro hlong hnil
    subst hnil
    have hl : 1 < (jsTrim s).length := (trim_length_iff_nonWs s).mpr hlong
    simp [classifyTopMatch, hl]
  · rcases hst : (classifyTopMatch res s).matchStatus with _ | _ | _
    · exact Or.inr (Or.inr rfl)
    · exact Or.inr (Or.inl rfl)
    · exact Or.inl rfl

/-- A concrete rule used by witnesses below. -/
def rule0 : EwsRule :=
  { rule_code := "R-1001", change_reported := "Resignation of Statutory Auditor",
    condition := "", severity := "High", primary_action := "Review",
    secondary_action := "", tat_days := some 5, assigned_team := "Credit", tags := [] }

/-- Witness for C1 at concrete inputs: a distance of 0.1 on input "auditor
resigned" is tier "matched"; the single-character input "a" is unmatched. -/
theorem c1_confidence_tiers_witness :
    classifyTopMatch [(rule0, some (1/10))] "auditor resigned" =
      ⟨some rule0, .matched, some (1/10)⟩ ∧
    classifyTopMatch [(rule0, some (1/10))] "a" = noMatch :=
  ⟨((c1_confidence_tiers [(rule0, some (1/10))] "auditor resigned" rule0 (1/10)).2.1
      (by decide) rfl).1 (by norm_num),
   (c1_confidence_tiers [(rule0, some (1/10))] "a" rule0 (1/10)).1 (by decide)⟩

/-! ## Data model — `EditableRow` (UploadFrameworkTable.tsx lines 24–29)

`__localId` (client-local identifier) is modelled as a `Nat` drawn from a
counter supply; `_id` (server identifier) is `serverId`. -/

structure EditableRow where
  localId : Nat
  serverId : Option String
  rule_code : String
  change_reported : String
  condition : String
  severity : String
  primary_action : String
  secondary_action : String
  tat_days : Option ℚ
  assigned_team : String
  tags : List String
  errors : List (String × String)
deriving DecidableEq, Repr

/-- A row with every field blank, used to build concrete examples. -/
def blankRow : EditableRow :=
  { localId := 0, serverId := none, rule_code := "", change_reported := "",
    condition := "", severity := "", primary_action := "", secondary_action := "",
    tat_days := none, assigned_team := "", tags := [], errors := [] }

/-! ## C3 — draft round trip (UploadFrameworkTable.tsx lines 394–422)

`saveDraft` stores `{headers, rows}` under the fixed key
`upload_framework_draft`; `loadDraft` restores headers and rows, giving each
row a fresh `__localId` (`{...r, __localId: genLocalId()}`).  JSON
serialization is the identity on field values that survive it (the claim's
hypothesis), so the stored blob holds the rows themselves. -/

/-- The draft blob stored under the fixed local-storage key. -/
structure Draft where
  headers : List String
  rows : List EditableRow
deriving DecidableEq, Repr

def saveDraft (headers : List String) (rows : List EditableRow) : Draft :=
  ⟨headers, rows⟩

/-- `loadDraft`: restore headers and rows, regenerating every row's
client-local identifier from the supply `gen`. -/
def loadDraft (d : Draft) (gen : Nat → Nat) : List String × List EditableRow :=
  (d.headers, d.rows.enum.map (fun p => { p.2 with localId := gen p.1 }))

/-- C3. Save-draft followed by load-draft yields the same number of rows, and
every field of every row is preserved except the client-local identifier,
which is freshly regenerated; server identifiers are preserved.  (Holds for
the empty table `rows = []` as well, by the same universal statement.) -/
theorem c3_draft_round_trip (headers : List String) (rows : List EditableRow)
    (gen : Nat → Nat) (i : Nat) :
    ((loadDraft (saveDraft headers rows) gen).2.length = rows.length) ∧
    ((loadDraft (saveDraft headers rows) gen).2[i]? =
      rows[i]?.map (fun r => { r with localId := gen i })) ∧
    (∀ r r', rows[i]? = some r →
      (loadDraft (saveDraft headers rows) gen).2[i]? = some r' →
      r'.serverId = r.serverId ∧ r'.rule_code = r.rule_code ∧
      r'.change_reported = r.change_reported ∧ r'.condition = r.condition ∧
      r'.severity = r.severity ∧ r'.primary_action = r.primary_action ∧
      r'.secondary_action = r.secondary_action ∧ r'.tat_days = r.tat_days ∧
      r'.assigned_team = r.assigned_team ∧ r'.tags = r.tags ∧
      r'.errors = r.errors ∧ r'.localId = gen i) := by
  have hget : (loadDraft (saveDraft headers rows) gen).2[i]? =
      rows[i]?.map (fun r => { r with localId := gen i }) := by
    simp only [loadDraft, saveDraft, List.getElem?_map, List.getElem?_enum]
    cases rows[i]? <;> rfl
  refine ⟨by simp [loadDraft, saveDraft], hget, ?_⟩
  intro r r' hr hr'
  rw [hget, hr] at hr'
  have heq : { r with localId := gen i } = r' :=
    Option.some.inj (show some { r with localId := gen i } = some r' from hr')
  rw [← heq]
  exact ⟨rfl, rfl, rfl, rfl, rfl, rfl, rfl, rfl, rfl, rfl, rfl, rfl⟩

/-- A concrete server-persisted row used by witnesses. -/
def srvRow : EditableRow :=
  { blankRow with serverId := some "srv1", change_reported := "X" }

/-- Witness for C3: a populated table with one server row round-trips, the
reloaded row equal to the saved one except for the fresh local identifier. -/
theorem c3_draft_round_trip_witness :
    ∃ r' : EditableRow,
      (loadDraft (saveDraft ["Severity"] [srvRow]) (fun n => 100 + n)).2[0]? = some r' ∧
      r'.serverId = srvRow.serverId ∧ r'.change_reported = srvRow.change_reported ∧
      r'.localId = 100 := by
  refine ⟨{ srvRow with localId := 100 }, ?_, ?_⟩
  · have h := (c3_draft_round_trip ["Severity"] [srvRow] (fun n => 100 + n) 0).2.1
    rw [h]; rfl
  · have h := (c3_draft_round_trip ["Severity"] [srvRow] (fun n => 100 + n) 0).2.2
      srvRow { srvRow with localId := 100 } rfl (by decide)
    exact ⟨h.1, h.2.2.1, h.2.2.2.2.2.2.2.2.2.2.2⟩

/-! ## C4 — batch upsert (UploadFrameworkTable.tsx lines 455–501)

```js
for (const r of rows) {
  const payload = {...r}; delete payload.__localId; delete payload._errors;
  if (r._id) { try { results.push(await API.put(`/rules/${r._id}`, payload)) } catch ... }
  else       { try { results.push(await API.post("/rules", payload)) } catch ... }
}
setImportedCount(results.length);
```

The remote outcome of each row's call is supplied by the oracle `ok`. -/

/-- The payload sent for a row: the row minus `__localId` and `_errors`. -/
structure RulePayload where
  serverId : Option String
  rule_code : String
  change_reported : String
  condition : String
  severity : String
  primary_action : String
  secondary_action : String
  tat_days : Option ℚ
  assigned_team : String
  tags : List String
deriving DecidableEq, Repr

def toPayload (r : EditableRow) : RulePayload :=
  { serverId := r.serverId, rule_code := r.rule_code,
    change_reported := r.change_reported, condition := r.condition,
    severity := r.severity, primary_action := r.primary_action,
    secondary_action := r.secondary_action, tat_days := r.tat_days,
    assigned_team := r.assigned_team, tags := r.tags }

/-- A remote call issued during the batch save. -/
inductive RuleCall where
  | update (id : String) (payload : RulePayload)
  | create (payload : RulePayload)
deriving DecidableEq, Repr

/-- The call a single row produces. -/
def callOf (r : EditableRow) : RuleCall :=
  match r.serverId with
  | some i => .update i (toPayload r)
  | none => .create (toPayload r)

/-- The `for (const r of rows)` loop of `upsertAll`: issues one call per row
in order; a failed call (`ok r = false`) is caught and contributes nothing to
`results`.  Returns the issued calls and `results.length`. -/
def upsertLoop (ok : EditableRow → Bool) : List EditableRow → List RuleCall × Nat
  | [] => ([], 0)
  | r :: rest =>
    let out := upsertLoop ok rest
    (callOf r :: out.1, (if ok r then 1 else 0) + out.2)

/-- C4. Batch persistence issues, in collection order, an update keyed by the
server id for every row carrying one and a create for every row without one;
the issued call sequence does not depend on which rows fail (a failure is
skipped, never aborts the batch); and the reported aggregate count equals the
number of rows whose call succeeded. -/
theorem c4_batch_upsert (ok : EditableRow → Bool) (rows : List EditableRow) :
    ((upsertLoop ok rows).1 = rows.map callOf) ∧
    ((upsertLoop ok rows).2 = (rows.filter ok).length) ∧
    (∀ ok' : EditableRow → Bool, (upsertLoop ok' rows).1 = (upsertLoop ok rows).1) ∧
    (∀ r ∈ rows, ∀ sid, r.serverId = some sid → callOf r = .update sid (toPayload r)) ∧
    (∀ r ∈ rows, r.serverId = none → callOf r = .create (toPayload r)) := by
  refine ⟨?_, ?_, ?_, ?_, ?_⟩
  · induction rows with
    | nil => rfl
    | cons r rest ih => simp [upsertLoop, ih]
  · induction rows with
    | nil => rfl
    | cons r rest ih =>
      by_cases hr : ok r <;> simp [upsertLoop, List.filter_cons, hr, ih, Nat.add_comm]
  · intro ok'
    induction rows with
    | nil => rfl
    | cons r rest ih => simp [upsertLoop, ih]
  · intro r _ sid hsid
    simp [callOf, hsid]
  · intro r _ hnone
    simp [callOf, hnone]

/-- Witness for C4 (scenario D of the spec): three rows, the middle call
fails, all three calls are still issued in order and the count is 2. -/
theorem c4_batch_upsert_witness :
    (upsertLoop
        (fun r => decide (r.localId ≠ 2))
        [{ blankRow with localId := 1, serverId := some "a" },
         { blankRow with localId := 2 },
         { blankRow with localId := 3 }]).1 =
      [.update "a" (toPayload { blankRow with localId := 1, serverId := some "a" }),
       .create (toPayload { blankRow with localId := 2 }),
       .create (toPayload { blankRow with localId := 3 })] ∧
    (upsertLoop
        (fun r => decide (r.localId ≠ 2))
        [{ blankRow with localId := 1, serverId := some "a" },
         { blankRow with localId := 2 },
         { blankRow with localId := 3 }]).2 = 2 := by
  have h := c4_batch_upsert (fun r => decide (r.localId ≠ 2))
    [{ blankRow with localId := 1, serverId := some "a" },
     { blankRow with localId := 2 },
     { blankRow with localId := 3 }]
  refine ⟨?_, ?_⟩
  · rw [h.1]; decide
  · rw [h.2.1]; decide

/-! ## C6 — `generateRuleCode` (UploadFrameworkTable.tsx lines 52–67)

```js
function generateRuleCode(existingRowsAny = [], counterRef) {
  const nums = [];
  existingRowsAny.forEach((r) => {
    const m = String(r?.rule_code ?? "").match(/(\d+)$/);
    if (m) nums.push(Number(m[1]));
  });
  if (nums.length > 0) {
    const max = Math.max(...nums);
    if (max >= counterRef.current) counterRef.current = max + 1;
  }
  const val = counterRef.current++;
  return `R-${val}`;
}
```

`counterRef` starts at 1001 (line 95) and persists between calls; the
function is modelled as counter-in, counter-out. -/

/-- Decimal value of a digit list (most significant first). -/
def digitsVal (l : List Char) : Nat :=
  l.foldl (fun n c => n * 10 + (c.toNat - 48)) 0

/-- The trailing-digits suffix of a code, per the regex `/(\d+)$/`. -/
def suffixNum (s : String) : Option Nat :=
  let ds := s.data.reverse.takeWhile Char.isDigit
  if ds.isEmpty then none else some (digitsVal ds.reverse)

/-- `generateRuleCode`: returns the generated code and the new counter. -/
def generateRuleCode (existing : List EditableRow) (counter : Nat) : String × Nat :=
  let nums := existing.filterMap (fun r => suffixNum r.rule_code)
  let counter1 :=
    if nums.length > 0 then
      let mx := nums.foldl Nat.max 0
      if counter ≤ mx then mx + 1 else counter
    else counter
  ("R-" ++ toString counter1, counter1 + 1)

theorem foldl_max_le (l : List Nat) (a : Nat) :
    a ≤ l.foldl Nat.max a ∧ ∀ x ∈ l, x ≤ l.foldl Nat.max a := by
  induction l generalizing a with
  | nil => exact ⟨le_refl a, by simp⟩
  | cons b t ih =>
    refine ⟨le_trans (Nat.le_max_left a b) (ih (Nat.max a b)).1, ?_⟩
    intro x hx
    rw [List.mem_cons] at hx
    rcases hx with rfl | hx
    · exact le_trans (Nat.le_max_right a x) (ih (Nat.max a x)).1
    · exact (ih (Nat.max a b)).2 x hx

/-- Core facts about one `generateRuleCode` call: the produced numeric value
is at least the incoming counter and strictly above every numeric suffix
among the existing codes, and the counter advances past it. -/
theorem generateRuleCode_spec (existing : List EditableRow) (counter : Nat) :
    ∃ val : Nat,
      (generateRuleCode existing counter).1 = "R-" ++ toString val ∧
      (generateRuleCode existing counter).2 = val + 1 ∧
      counter ≤ val ∧
      ∀ r ∈ existing, ∀ n, suffixNum r.rule_code = some n → n < val := by
  simp only [generateRuleCode]
  set nums := existing.filterMap (fun r => suffixNum r.rule_code) with hnums
  by_cases hlen : nums.length > 0
  · set mx := nums.foldl Nat.max 0 with hmx
    have hbound : ∀ x ∈ nums, x ≤ mx := (foldl_max_le nums 0).2
    by_cases hc : counter ≤ mx
    · refine ⟨mx + 1, ?_, ?_, by omega, ?_⟩
      · simp [hlen, hc]
      · simp [hlen, hc]
      · intro r hr n hn
        have hmem : n ∈ nums := by
          rw [hnums]
          exact List.mem_filterMap.mpr ⟨r, hr, hn⟩
        have := hbound n hmem
        omega
    · refine ⟨counter, ?_, ?_, le_refl _, ?_⟩
      · simp [hlen, hc]
      · simp [hlen, hc]
      · intro r hr n hn
        have hmem : n ∈ nums := by
          rw [hnums]
          exact List.mem_filterMap.mpr ⟨r, hr, hn⟩
        have := hbound n hmem
        omega
  · refine ⟨counter, by simp [hlen], by simp [hlen], le_refl _, ?_⟩
    intro r hr n hn
    have hmem : n ∈ nums := by
      rw [hnums]
      exact List.mem_filterMap.mpr ⟨r, hr, hn⟩
    have hnil : nums = [] := List.length_eq_zero.mp (by omega)
    rw [hnil] at hmem
    simp at hmem

/-- C6 counterexample.  The claim says the generated code is derived by
scanning the existing codes for the highest numeric suffix and incrementing
it.  With the module's persistent counter at its initial value 1001 (line 95)
and a table holding one row with code "R-5" (e.g. restored from a draft), the
code generates "R-1001", not "R-6". -/
theorem c6_counterexample :
    suffixNum "R-5" = some 5 ∧
    (generateRuleCode [{ blankRow with rule_code := "R-5" }] 1001).1 = "R-1001" ∧
    ("R-1001" : String) ≠ "R-6" := by
  refine ⟨by decide, by decide, by decide⟩

/-- C6 (amended).  Every locally generated rule code has the form
`R-<integer>` whose value is the maximum of the persistent counter and the
highest numeric suffix of the existing rows' codes plus one; the value is
strictly greater than every numeric suffix present in the snapshot (so the
generated code collides with no existing code's numeric suffix), and a
successive generation — from any table state, with the advanced counter —
always produces a strictly larger value, so generations never repeat. -/
theorem c6_rule_code_generation (existing : List EditableRow) (counter : Nat) :
    ∃ val : Nat,
      (generateRuleCode existing counter).1 = "R-" ++ toString val ∧
      (generateRuleCode existing counter).2 = val + 1 ∧
      counter ≤ val ∧
      (∀ r ∈ existing, ∀ n, suffixNum r.rule_code = some n → n < val) ∧
      (∀ existing₂ : List EditableRow, ∃ val₂ : Nat,
        (generateRuleCode existing₂ (generateRuleCode existing counter).2).1 =
          "R-" ++ toString val₂ ∧ val < val₂) := by
  obtain ⟨val, hcode, hctr, hge, hsuf⟩ := generateRuleCode_spec existing counter
  refine ⟨val, hcode, hctr, hge, hsuf, ?_⟩
  intro existing₂
  obtain ⟨val₂, hcode₂, _, hge₂, _⟩ :=
    generateRuleCode_spec existing₂ (generateRuleCode existing counter).2
  exact ⟨val₂, hcode₂, by omega⟩

/-- Witness for C6 (amended) at a concrete input: with counter 1001 and an
existing code "R-2000", the generated code is "R-2001". -/
theorem c6_rule_code_generation_witness :
    (generateRuleCode [{ blankRow with rule_code := "R-2000" }] 1001).1 = "R-2001" := by
  obtain ⟨val, hcode, hctr, hge, hsuf, _⟩ :=
    c6_rule_code_generation [{ blankRow with rule_code := "R-2000" }] 1001
  have h5 : (2000 : Nat) < val :=
    hsuf { blankRow with rule_code := "R-2000" } (by simp) 2000 (by decide)
  have hval : val = 2001 := by
    have hc : (generateRuleCode [{ blankRow with rule_code := "R-2000" }] 1001).2 = 2002 := by
      decide
    rw [hc] at hctr
    omega
  rw [hcode, hval]
  decide

/-! ## C5 — header auto-mapping (UploadFrameworkTable.tsx lines 235–259)

```js
const lowerMap = {};
headers.forEach((h) => (lowerMap[h.toLowerCase()] = h));
const initialMap = {};
EDITABLE_FIELDS.forEach((f) => {
  const key = f.key.toLowerCase();
  const labelLower = f.label.toLowerCase();
  const possible = Object.keys(lowerMap).find((lh) => {
    const lhLower = lh.toLowerCase();
    return (lhLower === key || lhLower.includes(key) || labelLower.includes(lhLower) ||
            key.includes(lhLower) || lhLower.includes(labelLower));
  });
  if (possible) initialMap[f.key] = lowerMap[possible];
});
if (!initialMap["severity"]) {
  const candidate = Object.keys(lowerMap).find((h) => /severity|level|risk/i.test(h));
  if (candidate) initialMap["severity"] = lowerMap[candidate];
}
```

`lowerMap` is an ordered association list (JS object keys of string kind
enumerate in insertion order; re-assignment keeps the key's position and
replaces its value).  `initialMap` is modelled as a function
`String → Option String`. -/

/-- A target field of the rules table: key and human label. -/
structure FieldSpec where
  key : String
  label : String
deriving DecidableEq, Repr

/-- `EDITABLE_FIELDS` of UploadFrameworkTable.tsx (lines 11–20). -/
def EDITABLE_FIELDS : List FieldSpec :=
  [⟨"change_reported", "Change Reported"⟩,
   ⟨"condition", "Condition"⟩,
   ⟨"severity", "Severity"⟩,
   ⟨"primary_action", "Primary Action"⟩,
   ⟨"secondary_action", "Secondary Action"⟩,
   ⟨"tat_days", "TAT (days)"⟩,
   ⟨"assigned_team", "Assigned Team"⟩,
   ⟨"tags", "Tags"⟩]

/-- `lowerMap`: lowercased header → original header, insertion-ordered,
re-assignment keeps key position and replaces the value. -/
def buildLowerMap (headers : List String) : List (String × String) :=
  headers.foldl (fun acc h =>
    let k := jsLower h
    if acc.any (fun p => p.1 == k) then
      acc.map (fun p => if p.1 == k then (k, h) else p)
    else acc ++ [(k, h)]) []

/-- JS object lookup `lowerMap[k]`. -/
def lookupLM (lm : List (String × String)) (k : String) : Option String :=
  (lm.find? (fun p => p.1 == k)).map Prod.snd

/-- The single-pass disjunction the `find` callback tests for a field. -/
def headerMatches (f : FieldSpec) (lh : String) : Bool :=
  let key := jsLower f.key
  let labelLower := jsLower f.label
  let lhLower := jsLower lh
  lhLower == key || jsIncludes lhLower key || jsIncludes labelLower lhLower ||
    jsIncludes key lhLower || jsIncludes lhLower labelLower

/-- The header chosen for one field: first key of `lowerMap` satisfying the
disjunction, taken to its original-case header. -/
def autoMapField (lm : List (String × String)) (f : FieldSpec) : Option String :=
  match (lm.map Prod.fst).find? (fun lh => headerMatches f lh) with
  | some lh => lookupLM lm lh
  | none => none

/-- One `EDITABLE_FIELDS.forEach` step building `initialMap`. -/
def mapStep (lm : List (String × String)) (acc : String → Option String)
    (f : FieldSpec) : String → Option String :=
  match autoMapField lm f with
  | some col => fun k => if k == f.key then some col else acc k
  | none => acc

/-- `initialMap` before the severity fallback. -/
def initialMapRaw (lm : List (String × String)) : String → Option String :=
  EDITABLE_FIELDS.foldl (mapStep lm) (fun _ => none)

/-- The regex `/severity|level|risk/i` applied to a (lowercased) key. -/
def sevLike (h : String) : Bool :=
  jsIncludes (jsLower h) "severity" || jsIncludes (jsLower h) "level" ||
    jsIncludes (jsLower h) "risk"

/-- The severity fallback candidate: first severity-like key's header. -/
def sevFallback (lm : List (String × String)) : Option String :=
  match (lm.map Prod.fst).find? sevLike with
  | some h => lookupLM lm h
  | none => none

/-- The complete auto-mapping, fallback included. -/
def initialMap (headers : List String) : String → Option String :=
  let lm := buildLowerMap headers
  let base := initialMapRaw lm
  if (base "severity").isSome then base
  else
    match sevFallback lm with
    | some orig => fun k => if k == "severity" then some orig else base k
    | none => base

/-- The mapping rule as the claim words it: for each field, first search all
headers for an exact case-insensitive match, and only when none exists search
for a substring match in either direction. -/
def autoMapFieldClaimed (lm : List (String × String)) (f : FieldSpec) : Option String :=
  match (lm.map Prod.fst).find? (fun lh => jsLower lh == jsLower f.key) with
  | some lh => lookupLM lm lh
  | none =>
    match (lm.map Prod.fst).find? (fun lh =>
        jsIncludes (jsLower lh) (jsLower f.key) ||
        jsIncludes (jsLower f.label) (jsLower lh) ||
        jsIncludes (jsLower f.key) (jsLower lh)) with
    | some lh => lookupLM lm lh
    | none => none

/-- C5 counterexample.  With headers `["precondition", "condition"]` the code
maps the field `condition` to the earlier substring match "precondition",
although "condition" is an exact case-insensitive match: exact matches are
not searched first, contrary to the claim. -/
theorem c5_counterexample :
    autoMapField (buildLowerMap ["precondition", "condition"])
        ⟨"condition", "Condition"⟩ = some "precondition" ∧
    autoMapFieldClaimed (buildLowerMap ["precondition", "condition"])
        ⟨"condition", "Condition"⟩ = some "condition" ∧
    (some "precondition" : Option String) ≠ some "condition" :=
  ⟨by decide, by decide, by decide⟩

theorem foldMapStep_notin (lm : List (String × String)) (fs : List FieldSpec)
    (acc : String → Option String) (k : String) (h : ∀ f ∈ fs, f.key ≠ k) :
    (fs.foldl (mapStep lm) acc) k = acc k := by
  induction fs generalizing acc with
  | nil => rfl
  | cons f rest ih =>
    rw [List.foldl_cons, ih (mapStep lm acc f) (fun g hg => h g (List.mem_cons_of_mem f hg))]
    have hf : f.key ≠ k := h f (List.mem_cons_self f rest)
    simp only [mapStep]
    cases autoMapField lm f with
    | none => rfl
    | some col =>
      have : (k == f.key) = false := by
        simp only [beq_eq_false_iff_ne]
        exact fun he => hf he.symm
      simp [this]

theorem foldMapStep_lookup (lm : List (String × String)) (fs : List FieldSpec)
    (acc : String → Option String) (k : String)
    (hnd : (fs.map FieldSpec.key).Nodup) :
    (fs.foldl (mapStep lm) acc) k =
      (match fs.find? (fun fd => fd.key == k) with
       | some fd => (match autoMapField lm fd with
                     | some col => some col
                     | none => acc k)
       | none => acc k) := by
  induction fs generalizing acc with
  | nil => rfl
  | cons f rest ih =>
    simp only [List.map_cons, List.nodup_cons] at hnd
    rw [List.foldl_cons]
    by_cases hk : f.key = k
    · have hnotin : ∀ g ∈ rest, g.key ≠ k := by
        intro g hg he
        exact hnd.1 (by rw [hk, ← he]; exact List.mem_map_of_mem FieldSpec.key hg)
      rw [foldMapStep_notin lm rest (mapStep lm acc f) k hnotin]
      have hbeq : (f.key == k) = true := beq_iff_eq.mpr hk
      simp only [List.find?_cons, hbeq]
      simp only [mapStep]
      cases autoMapField lm f with
      | none => rfl
      | some col => simp [beq_iff_eq.mpr hk.symm]
    · have hbeq : (f.key == k) = false := beq_eq_false_iff_ne.mpr hk
      rw [ih (mapStep lm acc f) hnd.2]
      have hstep : (mapStep lm acc f) k = acc k := by
        simp only [mapStep]
        cases autoMapField lm f with
        | none => rfl
        | some col => simp [beq_eq_false_iff_ne.mpr (fun he => hk he.symm)]
      simp only [List.find?_cons, hbeq]
      rw [hstep]

theorem map_fst_update (acc : List (String × String)) (k h : String) :
    (acc.map (fun p => if p.1 == k then (k, h) else p)).map Prod.fst =
      acc.map Prod.fst := by
  induction acc with
  | nil => rfl
  | cons p rest ih =>
    simp only [List.map_cons, ih]
    by_cases hp : p.1 == k
    · have : p.1 = k := beq_iff_eq.mp hp
      simp [hp, this]
    · simp [hp]

theorem buildLowerMap_keys_nodup (headers : List String) :
    ((buildLowerMap headers).map Prod.fst).Nodup := by
  suffices hgen : ∀ acc : List (String × String), (acc.map Prod.fst).Nodup →
      ((headers.foldl (fun acc h =>
        let k := jsLower h
        if acc.any (fun p => p.1 == k) then
          acc.map (fun p => if p.1 == k then (k, h) else p)
        else acc ++ [(k, h)]) acc).map Prod.fst).Nodup by
    exact hgen [] List.nodup_nil
  induction headers with
  | nil => intro acc hacc; exact hacc
  | cons h rest ih =>
    intro acc hacc
    rw [List.foldl_cons]
    apply ih
    show ((if acc.any (fun p => p.1 == jsLower h) then
        acc.map (fun p => if p.1 == jsLower h then (jsLower h, h) else p)
      else acc ++ [(jsLower h, h)]).map Prod.fst).Nodup
    by_cases hmem : acc.any (fun p => p.1 == jsLower h)
    · rw [if_pos hmem, map_fst_update]
      exact hacc
    · rw [if_neg hmem, List.map_append, List.nodup_append]
      refine ⟨hacc, by simp, ?_⟩
      intro a ha hb
      simp only [List.map_cons, List.map_nil, List.mem_singleton] at hb
      subst hb
      apply hmem
      rw [List.any_eq_true]
      rw [List.mem_map] at ha
      obtain ⟨p, hp, hfst⟩ := ha
      exact ⟨p, hp, by simp [hfst]⟩

theorem find_keys_lookup (lm : List (String × String)) (q : String → Bool)
    (hnd : (lm.map Prod.fst).Nodup) :
    (match (lm.map Prod.fst).find? q with
     | some k => lookupLM lm k
     | none => none) = (lm.find? (fun p => q p.1)).map Prod.snd := by
  induction lm with
  | nil => rfl
  | cons p rest ih =>
    simp only [List.map_cons, List.nodup_cons] at hnd
    simp only [List.map_cons, List.find?_cons]
    by_cases hq : q p.1
    · simp [hq, lookupLM, List.find?_cons]
    · have hqf : q p.1 = false := by simpa using hq
      simp only [hqf]
      rw [← ih hnd.2]
      cases hfind : (rest.map Prod.fst).find? q with
      | none => rfl
      | some k =>
        have hkmem : k ∈ rest.map Prod.fst := List.mem_of_find?_eq_some hfind
        have hkne : (p.1 == k) = false := by
          rw [beq_eq_false_iff_ne]
          intro he
          exact hnd.1 (he ▸ hkmem)
        simp only [lookupLM, List.find?_cons, hkne]

/-- C5 (amended).  For each target field the discovered headers are scanned
once, in insertion order, and the first header satisfying any of the
disjuncts — equal to the field key case-insensitively, containing the field
key, contained in the field's label, contained in the field key, or
containing the field's label — wins (an exact match is not given priority
over an earlier substring match); fields are processed in the iteration
order of `EDITABLE_FIELDS`, each key mapped independently; and the
severity-like regex fallback (`severity|level|risk`) fills the severity
mapping exactly when no direct severity mapping was found. -/
theorem c5_auto_mapping (headers : List String) (f : FieldSpec) :
    (autoMapField (buildLowerMap headers) f =
      ((buildLowerMap headers).find? (fun p => headerMatches f p.1)).map Prod.snd) ∧
    (∀ k, initialMapRaw (buildLowerMap headers) k =
      (match EDITABLE_FIELDS.find? (fun fd => fd.key == k) with
       | some fd => autoMapField (buildLowerMap headers) fd
       | none => none)) ∧
    (∀ col, autoMapField (buildLowerMap headers) ⟨"severity", "Severity"⟩ = some col →
      initialMap headers "severity" = some col) ∧
    (autoMapField (buildLowerMap headers) ⟨"severity", "Severity"⟩ = none →
      initialMap headers "severity" =
        ((buildLowerMap headers).find? (fun p => sevLike p.1)).map Prod.snd) := by
  have hnd := buildLowerMap_keys_nodup headers
  have hfield : autoMapField (buildLowerMap headers) f =
      ((buildLowerMap headers).find? (fun p => headerMatches f p.1)).map Prod.snd := by
    rw [autoMapField.eq_def]
    exact find_keys_lookup (buildLowerMap headers) (headerMatches f) hnd
  have hraw : ∀ k, initialMapRaw (buildLowerMap headers) k =
      (match EDITABLE_FIELDS.find? (fun fd => fd.key == k) with
       | some fd => autoMapField (buildLowerMap headers) fd
       | none => none) := by
    intro k
    rw [initialMapRaw,
      foldMapStep_lookup (buildLowerMap headers) EDITABLE_FIELDS (fun _ => none) k
        (by decide)]
    cases hf : EDITABLE_FIELDS.find? (fun fd => fd.key == k) with
    | none => rfl
    | some fd =>
      show (match autoMapField (buildLowerMap headers) fd with
            | some col => some col
            | none => (none : Option String)) =
          autoMapField (buildLowerMap headers) fd
      cases autoMapField (buildLowerMap headers) fd <;> rfl
  have hsevraw : initialMapRaw (buildLowerMap headers) "severity" =
      autoMapField (buildLowerMap headers) ⟨"severity", "Severity"⟩ := by
    rw [hraw "severity"]
    rfl
  refine ⟨hfield, hraw, ?_, ?_⟩
  · intro col hcol
    rw [initialMap]
    simp only [hsevraw, hcol, Option.isSome_some, if_pos]
  · intro hnone
    rw [initialMap]
    simp only [hsevraw, hnone, Option.isSome_none, Bool.false_eq_true, if_neg]
    have hfb : sevFallback (buildLowerMap headers) =
        ((buildLowerMap headers).find? (fun p => sevLike p.1)).map Prod.snd := by
      rw [sevFallback.eq_def]
      exact find_keys_lookup (buildLowerMap headers) sevLike hnd
    rw [← hfb]
    cases hcase : sevFallback (buildLowerMap headers) with
    | none =>
      show initialMapRaw (buildLowerMap headers) "severity" = none
      rw [hsevraw]; exact hnone
    | some orig => simp

/-- Witness for C5 (amended): the header "risk rating" does not match the
severity field directly but is filled in by the regex fallback; the header
"Severity Level" is a direct substring match. -/
theorem c5_auto_mapping_witness :
    initialMap ["risk rating"] "severity" = some "risk rating" ∧
    initialMap ["Severity Level"] "severity" = some "Severity Level" := by
  constructor
  · have h := (c5_auto_mapping ["risk rating"] ⟨"severity", "Severity"⟩).2.2.2 (by decide)
    rw [h]; decide
  · exact (c5_auto_mapping ["Severity Level"] ⟨"severity", "Severity"⟩).2.2.1
      "Severity Level" (by decide)

/-! ## Data model — `EventRow` (EventsVerified.tsx lines 24–45) -/

inductive SheetType where
  | newSheet
  | oldSheet
deriving DecidableEq, Repr

structure EventRow where
  localId : Nat
  saved : Bool
  sheetType : SheetType
  sr_no : JVal
  company : String
  company_pan : String
  change_reported : String
  description : String
  event_date : Option String
  identification_date : Option String
  flag : String
  rbi_trigger : String
  matchedRule : Option EwsRule
  matchStatus : MatchStatus
  score : Option ℚ
  event_raw : List (String × JVal)
deriving DecidableEq, Repr

/-- An event row with every field blank, used for concrete examples. -/
def blankEventRow : EventRow :=
  { localId := 0, saved := false, sheetType := .newSheet, sr_no := .str "",
    company := "", company_pan := "", change_reported := "", description := "",
    event_date := none, identification_date := none, flag := "", rbi_trigger := "",
    matchedRule := none, matchStatus := .unmatched, score := none, event_raw := [] }

/-! ## C8 — alert projection of `saveAllToServer` (EventsVerified.tsx lines 429–454)

```js
const matchedAlerts = newRows
  .filter((r) => r.matchedRule)
  .map((r) => ({
    company: r.company || "",
    event_name: r.change_reported || "",
    event_raw: r.event_raw || {},
    matched_rule: r.matchedRule,
    severity: r.matchedRule?.severity,
    tat_days: r.matchedRule?.tat_days,
    status: "Pending",
    created_at: new Date().toISOString(),
  }));
```

Note the projection reads `newRows` only, although the preceding event save
posts `[...newRows, ...oldRows]`. -/

structure AlertPayload where
  company : String
  event_name : String
  event_raw : List (String × JVal)
  matched_rule : Option EwsRule
  severity : Option String
  tat_days : Option ℚ
  status : String
  created_at : String
deriving DecidableEq, Repr

/-- The payload built from one matched row (`now` is the creation instant). -/
def mkAlert (now : String) (r : EventRow) : AlertPayload :=
  { company := r.company, event_name := r.change_reported,
    event_raw := r.event_raw, matched_rule := r.matchedRule,
    severity := r.matchedRule.map EwsRule.severity,
    tat_days := r.matchedRule.bind EwsRule.tat_days,
    status := "Pending", created_at := now }

/-- The alert projection the code runs after a successful event save: it is
applied to `newRows` only. -/
def savedEventAlerts (now : String) (newRows oldRows : List EventRow) :
    List AlertPayload :=
  (newRows.filter (fun r => r.matchedRule.isSome)).map (mkAlert now)

/-- Modelled from the claim's words: one payload per saved event row
(new and old sheets alike) carrying a non-null matched rule. -/
def alertProjectionClaimed (now : String) (rows : List EventRow) : List AlertPayload :=
  (rows.filter (fun r => r.matchedRule.isSome)).map (mkAlert now)

/-- An old-sheet row carrying a matched rule, for the counterexample. -/
def matchedOldRow : EventRow :=
  { blankEventRow with
    localId := 7, sheetType := SheetType.oldSheet,
    company := "Acme", change_reported := "Auditor resigned",
    matchedRule := some rule0, matchStatus := MatchStatus.matched, score := some 0 }

/-- C8 counterexample.  A saved table whose only matched row sits on the old
sheet produces no alert payload at all, although that row is an event row
carrying a non-null `matchedRule`: the projection reads the new sheet only. -/
theorem c8_counterexample :
    savedEventAlerts "2024-01-01T00:00:00.000Z" [] [matchedOldRow] = [] ∧
    alertProjectionClaimed "2024-01-01T00:00:00.000Z" ([] ++ [matchedOldRow]) =
      [mkAlert "2024-01-01T00:00:00.000Z" matchedOldRow] ∧
    ([] : List AlertPayload) ≠ [mkAlert "2024-01-01T00:00:00.000Z" matchedOldRow] :=
  ⟨rfl, by decide, by simp⟩

/-- C8 (amended).  The alert projection run after a successful event save
produces exactly one AlertPayload per NEW-sheet event row carrying a non-null
matchedRule — with the row's company, event text and raw source snapshot, the
matched-rule snapshot, severity and turnaround days copied from the matched
rule, status "Pending" and the creation timestamp — and no payload for any
row whose matchedRule is null; old-sheet rows never contribute payloads. -/
theorem c8_alert_projection (now : String) (newRows oldRows : List EventRow) :
    (savedEventAlerts now newRows oldRows = alertProjectionClaimed now newRows) ∧
    ((savedEventAlerts now newRows oldRows).length =
      (newRows.filter (fun r => r.matchedRule.isSome)).length) ∧
    (∀ a ∈ savedEventAlerts now newRows oldRows,
      a.status = "Pending" ∧ a.created_at = now) ∧
    (∀ r ∈ newRows, ∀ ru, r.matchedRule = some ru →
      mkAlert now r =
        { company := r.company, event_name := r.change_reported,
          event_raw := r.event_raw, matched_rule := some ru,
          severity := some ru.severity, tat_days := ru.tat_days,
          status := "Pending", created_at := now }) := by
  refine ⟨rfl, by simp [savedEventAlerts], ?_, ?_⟩
  · intro a ha
    simp only [savedEventAlerts, List.mem_map] at ha
    obtain ⟨r, _, hr⟩ := ha
    rw [← hr]
    exact ⟨rfl, rfl⟩
  · intro r _ ru hru
    simp [mkAlert, hru]

/-- A new-sheet row carrying a matched rule, for the C8 witness. -/
def matchedNewRow : EventRow :=
  { blankEventRow with
    localId := 3, sheetType := SheetType.newSheet,
    company := "Acme", change_reported := "Auditor resigned",
    matchedRule := some rule0, matchStatus := MatchStatus.matched, score := some (1/10) }

/-- Witness for C8 (amended): one matched new row yields exactly one payload
with the matched rule's severity and turnaround days. -/
theorem c8_alert_projection_witness :
    (savedEventAlerts "T0" [matchedNewRow] []).length = 1 ∧
    mkAlert "T0" matchedNewRow =
      { company := "Acme", event_name := "Auditor resigned", event_raw := [],
        matched_rule := some rule0, severity := some "High", tat_days := some 5,
        status := "Pending", created_at := "T0" } := by
  constructor
  · rw [(c8_alert_projection "T0" [matchedNewRow] []).2.1]
    decide
  · have h := (c8_alert_projection "T0" [matchedNewRow] []).2.2.2 matchedNewRow
      (by simp) rule0 rfl
    rw [h]
    decide

/-! ## C10 — `deleteRow` + `loadBackendRules` (UploadFrameworkTable.tsx
lines 329–349 and 152–202)

```js
async function deleteRow(localId) {
  const target = rows.find((r) => r.__localId === localId);
  if (!target) return;
  if (target._id) {
    if (!confirm(...)) return;
    try {
      await API.delete(`/rules/${target._id}`);
      setRows((prev) => prev.filter((r) => r.__localId !== localId));
      await loadBackendRules();          // replaces rows with the reloaded catalog
    } catch { alert(...); }
  } else {
    if (!confirm(...)) return;
    setRows((prev) => prev.filter((r) => r.__localId !== localId));
  }
}
```

`loadBackendRules` converts every server record to a fresh `EditableRow`
(fresh `__localId`, `_id` from the record, `rule_code` defaulted to
`R-${1000+idx}`, tags split, turnaround coerced, severity normalized) and
replaces the whole in-memory collection.  The server catalog returned by
`GET /rules` is passed in as `serverData`; confirmation dialogs are taken as
accepted. -/

/-- A rule record as served by the backend (`_id ?? id` collapsed into `sid`,
`rule_code ?? ruleCode ?? code` collapsed into `rule_code`; absent fields are
`none`; `tags` is the comma-separated string form; in this model `none` tags
and the code's `""` both denote "no tags"). -/
structure ServerRule where
  sid : Option String
  rule_code : Option String
  change_reported : Option String
  condition : Option String
  severity : Option String
  primary_action : Option String
  secondary_action : Option String
  tat_days : Option ℚ
  assigned_team : Option String
  tags : Option String
deriving DecidableEq, Repr

/-- `v.split(",").map(s => s.trim()).filter(Boolean)`. -/
def splitTags (s : String) : List String :=
  ((s.split (fun c => c == ',')).map jsTrim).filter (fun t => t ≠ "")

/-- Severity of a server record after `normalizeSeverity` (string input). -/
def severityOfServer : Option String → String
  | some s =>
    match normalizeSeverity (.str s) with
    | .str t => t
    | _ => s
  | none => ""

/-- One record of `loadBackendRules`' conversion, with its fresh local id and
its index in the catalog. -/
def convertServerRule (localId idx : Nat) (r : ServerRule) : EditableRow :=
  { localId := localId,
    serverId := r.sid,
    rule_code := r.rule_code.getD ("R-" ++ toString (1000 + idx)),
    change_reported := r.change_reported.getD "",
    condition := r.condition.getD "",
    severity := severityOfServer r.severity,
    primary_action := r.primary_action.getD "",
    secondary_action := r.secondary_action.getD "",
    tat_days := r.tat_days,
    assigned_team := r.assigned_team.getD "",
    tags := (r.tags.map splitTags).getD [],
    errors := [] }

/-- The row collection `loadBackendRules` installs, fresh local ids drawn
from `nextLocal` upward. -/
def loadBackendRows (serverData : List ServerRule) (nextLocal : Nat) :
    List EditableRow :=
  serverData.enum.map (fun p => convertServerRule (nextLocal + p.1) p.1 p.2)

/-- The state of the rules-table component that `deleteRow` touches. -/
structure RulesState where
  rows : List EditableRow
  nextLocal : Nat
deriving Repr

/-- `deleteRow`: a row with a server id requires the remote delete to succeed
(`remoteOk`), after which the whole collection is replaced by the freshly
reloaded catalog (the intermediate local filter is overwritten by the
reload); a local-only row is removed locally. -/
def deleteRow (st : RulesState) (localId : Nat) (remoteOk : Bool)
    (serverData : List ServerRule) : RulesState :=
  match st.rows.find? (fun r => r.localId == localId) with
  | none => st
  | some target =>
    match target.serverId with
    | some _ =>
      if remoteOk then
        { rows := loadBackendRows serverData st.nextLocal,
          nextLocal := st.nextLocal + serverData.length }
      else st
    | none => { st with rows := st.rows.filter (fun r => r.localId != localId) }

theorem loadBackendRows_localId_ge (serverData : List ServerRule) (n : Nat)
    (r : EditableRow) (hr : r ∈ loadBackendRows serverData n) : n ≤ r.localId := by
  simp only [loadBackendRows, List.mem_map] at hr
  obtain ⟨p, _, hp⟩ := hr
  rw [← hp]
  exact Nat.le_add_right n p.1

/-- C10.  After a successful remote delete of a row carrying a server id,
the in-memory rules collection is exactly the freshly reloaded server
catalog; consequently every row present before the delete whose local
identifier predates the reload's fresh ids — in particular every unsaved
local-only row — is no longer in the collection. -/
theorem c10_delete_reload (st : RulesState) (localId : Nat)
    (serverData : List ServerRule) (target : EditableRow) (sid : String)
    (hfind : st.rows.find? (fun r => r.localId == localId) = some target)
    (hsid : target.serverId = some sid)
    (hfresh : ∀ r ∈ st.rows, r.localId < st.nextLocal) :
    ((deleteRow st localId true serverData).rows =
      loadBackendRows serverData st.nextLocal) ∧
    (∀ r ∈ st.rows, r.serverId = none →
      r ∉ (deleteRow st localId true serverData).rows) := by
  have hrows : (deleteRow st localId true serverData).rows =
      loadBackendRows serverData st.nextLocal := by
    rw [deleteRow.eq_def, hfind]
    simp [hsid]
  refine ⟨hrows, ?_⟩
  intro r hr _ hmem
  rw [hrows] at hmem
  have hge := loadBackendRows_localId_ge serverData st.nextLocal r hmem
  have hlt := hfresh r hr
  omega

/-- Concrete state for the C10 witness: one persisted row, one local-only
row. -/
def c10State : RulesState :=
  { rows := [{ blankRow with localId := 0, serverId := some "s1", rule_code := "R-1" },
             { blankRow with localId := 1, rule_code := "R-2" }],
    nextLocal := 2 }

/-- The catalog the backend serves after the delete. -/
def c10Server : List ServerRule :=
  [{ sid := some "s9", rule_code := some "R-9", change_reported := some "Z",
     condition := none, severity := some "h", primary_action := none,
     secondary_action := none, tat_days := some 3, assigned_team := none,
     tags := some "a, b" }]

/-- Witness for C10: deleting the persisted row replaces the collection with
the reloaded catalog, and the unsaved local-only row is gone. -/
theorem c10_delete_reload_witness :
    ((deleteRow c10State 0 true c10Server).rows =
      loadBackendRows c10Server 2) ∧
    ({ blankRow with localId := 1, rule_code := "R-2" } : EditableRow) ∉
      (deleteRow c10State 0 true c10Server).rows := by
  have h := c10_delete_reload c10State 0 c10Server
    { blankRow with localId := 0, serverId := some "s1", rule_code := "R-1" }
    "s1" (by decide) rfl (by decide)
  exact ⟨h.1, h.2 { blankRow with localId := 1, rule_code := "R-2" }
    (by simp [c10State]) rfl⟩

/-! ## C2 — `normalizeDate` (EventsVerified.tsx lines 131–164)

```js
function normalizeDate(v) {
  if (!v && v !== 0) return null;
  if (v instanceof Date && !isNaN(v.getTime())) return v.toISOString();
  if (typeof v === "number") {
    const date = XLSX.SSF.parse_date_code(v);
    if (date) return new Date(Date.UTC(date.y, date.m - 1, date.d)).toISOString();
  }
  const s = String(v).trim();
  const parsed = Date.parse(s);
  if (!isNaN(parsed)) return new Date(parsed).toISOString();
  const parts = s.split(/[\/\-\.]/).map((p) => p.trim());
  if (parts.length === 3) {
    const [a, b, c] = parts;
    if (a.length === 4) {
      const iso = `${a}-${b.padStart(2,"0")}-${c.padStart(2,"0")}`;
      const p = Date.parse(iso); if (!isNaN(p)) return new Date(p).toISOString();
    } else {
      const iso = `${c}-${b.padStart(2,"0")}-${a.padStart(2,"0")}`;
      const p = Date.parse(iso); if (!isNaN(p)) return new Date(p).toISOString();
    }
  }
  return null;
}
```

The embedding makes the one genuinely throwing operation explicit:
`Date.prototype.toISOString` raises a RangeError on an invalid date, so the
result type is `Except`.  `Date.parse` is the oracle `dparse` (returning a
valid, representable time value or `none` for NaN) and JS number-to-string
formatting is the oracle `numStr`. -/

/-- A spreadsheet cell as seen by `normalizeDate`: a JS `Date` (valid time
value, or invalid — `getTime()` is NaN), a number, a string, a boolean,
`null` or `undefined`. -/
inductive CellVal where
  | jsdate (t : Option Int)
  | num (q : ℚ)
  | str (s : String)
  | boolv (b : Bool)
  | nullv
  | undefv
deriving DecidableEq, Repr

/-- Proleptic-Gregorian date of day `serial` of the shifted Excel count
(serial 1 = 1900-01-01): the civil-from-days conversion performed by
`new Date(1900, 0, 1)` + `setDate` inside `SSF.parse_date_code`. -/
def civilFromSerial (serial : Nat) : Nat × Nat × Nat :=
  let zz := serial + 693900
  let era := zz / 146097
  let doe := zz % 146097
  let yoe := (doe - doe / 1460 + doe / 36524 - doe / 146096) / 365
  let y := yoe + era * 400
  let doy := doe - (365 * yoe + yoe / 4 - yoe / 100)
  let mp := (5 * doy + 2) / 153
  let d := doy - (153 * mp + 2) / 5 + 1
  let m := if mp < 10 then mp + 3 else mp - 9
  (if m ≤ 2 then y + 1 else y, m, d)

/-- The `y`/`m`/`d` fields of `XLSX.SSF.parse_date_code` (1900 date system):
serials above 2958465 or below 0 give `null`; a sub-second residue `u`
above 0.9999 rolls the time — and possibly the day — over; serial 60 is the
fictitious 1900-02-29 and serial 0 renders as `1900-01-00`; later serials
are shifted by one day past the leap-year bug. -/
def ssfParseDateCode (v : ℚ) : Option (Nat × Nat × Nat) :=
  if v > 2958465 ∨ v < 0 then none
  else
    let date0 : Nat := (⌊v⌋).toNat
    let t86 : ℚ := 86400 * (v - (date0 : ℚ))
    let time : Int := ⌊t86⌋
    let u0 : ℚ := t86 - (time : ℚ)
    let u : ℚ := if |u0| < 1/1000000 then 0 else u0
    let date1 : Nat :=
      if u > 9999/10000 then (if time + 1 = 86400 then date0 + 1 else date0) else date0
    if date1 = 60 then some (1900, 2, 29)
    else if date1 = 0 then some (1900, 1, 0)
    else some (civilFromSerial (if date1 > 60 then date1 - 1 else date1))

/-- `new Date(Date.UTC(y, m0, d))` with zero-based month `m0`: a valid time
value whenever the year is within the range representable by a JS `Date`
(the timestamp itself is abstracted as an injective encoding). -/
def dateUTC (y m0 d : Nat) : Option Int :=
  if y ≤ 275760 then some ((y : Int) * 10000 + (m0 : Int) * 100 + (d : Int)) else none

/-- `Date.prototype.toISOString`: renders a valid date, throws a RangeError
on an invalid one. -/
def toISO (t : Option Int) : Except Unit String :=
  match t with
  | some ts => .ok ("@" ++ toString ts)
  | none => .error ()

/-- `s.padStart(2, "0")`. -/
def padStart2 (s : String) : String :=
  if 2 ≤ s.length then s else ⟨List.replicate (2 - s.length) '0' ++ s.data⟩

/-- `s.split(/[\/\-\.]/)`. -/
def jsSplitDate (s : String) : List String :=
  s.split (fun c => c == '/' || c == '-' || c == '.')

/-- The ISO candidate rebuilt from three split parts: year-first when the
first part has 4 characters, else day-first. -/
def rebuildIso (a b c : String) : String :=
  if a.length = 4 then a ++ "-" ++ padStart2 b ++ "-" ++ padStart2 c
  else c ++ "-" ++ padStart2 b ++ "-" ++ padStart2 a

/-- `parts.length === 3` destructuring. -/
def parts3? : List String → Option (String × String × String)
  | [a, b, c] => some (a, b, c)
  | _ => none

/-- The string tail of `normalizeDate`, applied to the already-trimmed
`String(v).trim()`. -/
def strPath (dparse : String → Option Int) (s : String) : Except Unit (Option String) :=
  match dparse s with
  | some t => (toISO (some t)).map some
  | none =>
    match parts3? ((jsSplitDate s).map jsTrim) with
    | some (a, b, c) =>
      match dparse (rebuildIso a b c) with
      | some p => (toISO (some p)).map some
      | none => .ok none
    | none => .ok none

/-- `normalizeDate` itself.  The falsy guard `(!v && v !== 0)` sends `null`,
`undefined`, `""` and `false` to the "no date" result; `0` passes through to
the numeric branch. -/
def normalizeDate (dparse : String → Option Int) (numStr : ℚ → String) :
    CellVal → Except Unit (Option String)
  | .nullv => .ok none
  | .undefv => .ok none
  | .boolv b => if b then strPath dparse (jsTrim "true") else .ok none
  | .jsdate (some t) => (toISO (some t)).map some
  | .jsdate none => strPath dparse (jsTrim "Invalid Date")
  | .num q =>
    match ssfParseDateCode q with
    | some (y, m, d) => (toISO (dateUTC y (m - 1) d)).map some
    | none => strPath dparse (jsTrim (numStr q))
  | .str s => if s = "" then .ok none else strPath dparse (jsTrim s)

theorem civilFromSerial_year_le (serial : Nat) (h : serial ≤ 2958466) :
    (civilFromSerial serial).1 ≤ 275760 := by
  simp only [civilFromSerial]
  split <;> split <;> omega

theorem ssfParseDateCode_year_le (v : ℚ) (y m d : Nat)
    (h : ssfParseDateCode v = some (y, m, d)) : y ≤ 275760 := by
  rw [ssfParseDateCode] at h
  by_cases hb : v > 2958465 ∨ v < 0
  · rw [if_pos hb] at h; exact absurd h (by simp)
  · rw [if_neg hb] at h
    push_neg at hb
    have hvle : v ≤ 2958465 := hb.1
    have hfl : ⌊v⌋ ≤ 2958465 := by
      have := Int.floor_le_floor hvle
      simpa using this
    have hd0 : (⌊v⌋).toNat ≤ 2958465 := by omega
    simp only at h
    set date0 : Nat := (⌊v⌋).toNat with hdate0
    set t86 : ℚ := 86400 * (v - (date0 : ℚ)) with ht86
    set time : Int := ⌊t86⌋ with htime
    set u0 : ℚ := t86 - (time : ℚ) with hu0
    set u : ℚ := if |u0| < 1/1000000 then 0 else u0 with hu
    set date1 : Nat :=
      if u > 9999/10000 then (if time + 1 = 86400 then date0 + 1 else date0) else date0
      with hdate1
    have hd1 : date1 ≤ 2958466 := by
      rw [hdate1]
      split
      · split <;> omega
      · omega
    by_cases h60 : date1 = 60
    · rw [if_pos h60] at h
      have hy : (1900 : Nat) = y := congrArg Prod.fst (Option.some.inj h)
      omega
    · rw [if_neg h60] at h
      by_cases h0 : date1 = 0
      · rw [if_pos h0] at h
        have hy : (1900 : Nat) = y := congrArg Prod.fst (Option.some.inj h)
        omega
      · rw [if_neg h0] at h
        have hy : (civilFromSerial (if date1 > 60 then date1 - 1 else date1)).1 = y :=
          congrArg Prod.fst (Option.some.inj h)
        rw [← hy]
        apply civilFromSerial_year_le
        split <;> omega

theorem strPath_total (dparse : String → Option Int) (s : String) :
    ∃ r : Option String, strPath dparse s = .ok r := by
  rw [strPath]
  cases dparse s with
  | some t => exact ⟨some ("@" ++ toString t), rfl⟩
  | none =>
    cases parts3? ((jsSplitDate s).map jsTrim) with
    | none => exact ⟨none, rfl⟩
    | some abc =>
      obtain ⟨a, b, c⟩ := abc
      show ∃ r, (match dparse (rebuildIso a b c) with
        | some p => (toISO (some p)).map some
        | none => (.ok none : Except Unit (Option String))) = .ok r
      cases dparse (rebuildIso a b c) with
      | some p => exact ⟨some ("@" ++ toString p), rfl⟩
      | none => exact ⟨none, rfl⟩

/-- Totality of `normalizeDate`: every cell value yields `.ok`. -/
theorem normalizeDate_ok (dparse : String → Option Int) (numStr : ℚ → String)
    (v : CellVal) :
    ∃ r : Option String, normalizeDate dparse numStr v = .ok r := by
  cases v with
    | nullv => exact ⟨none, rfl⟩
    | undefv => exact ⟨none, rfl⟩
    | boolv b =>
      cases b with
      | false => exact ⟨none, rfl⟩
      | true => simpa [normalizeDate] using strPath_total dparse (jsTrim "true")
    | jsdate t =>
      cases t with
      | some ts => exact ⟨some ("@" ++ toString ts), rfl⟩
      | none => simpa [normalizeDate] using strPath_total dparse (jsTrim "Invalid Date")
    | str s =>
      by_cases hs : s = ""
      · exact ⟨none, by simp [normalizeDate, hs]⟩
      · simpa [normalizeDate, hs] using strPath_total dparse (jsTrim s)
    | num q =>
      cases hssf : ssfParseDateCode q with
      | none => simpa [normalizeDate, hssf] using strPath_total dparse (jsTrim (numStr q))
      | some ymd =>
        obtain ⟨y, m, d⟩ := ymd
        have hy : y ≤ 275760 := ssfParseDateCode_year_le q y m d hssf
        refine ⟨some ("@" ++ toString ((y : Int) * 10000 + ((m - 1 : Nat) : Int) * 100 +
          (d : Int))), ?_⟩
        simp [normalizeDate, hssf, dateUTC, hy, toISO, Except.map]

/-- C2.  Date normalization is total and never throws: for every cell value
(date object — valid or invalid —, number, string, boolean, null or
undefined) it returns `.ok` of either a canonical timestamp string or the
explicit "no date" result `none`; and for every non-empty string on which
every parse attempt fails (direct parse of the trimmed text, and the
three-part split rebuild), the result is exactly "no date", not an
exception. -/
theorem c2_normalize_date_total (dparse : String → Option Int) (numStr : ℚ → String)
    (v : CellVal) :
    (∃ r : Option String, normalizeDate dparse numStr v = .ok r) ∧
    (∀ s, v = .str s → s ≠ "" → dparse (jsTrim s) = none →
      (∀ a b c, parts3? ((jsSplitDate (jsTrim s)).map jsTrim) = some (a, b, c) →
        dparse (rebuildIso a b c) = none) →
      normalizeDate dparse numStr v = .ok none) := by
  refine ⟨normalizeDate_ok dparse numStr v, ?_⟩
  intro s hv hne hparse hsplit
  subst hv
  rw [normalizeDate, if_neg hne, strPath, hparse]
  cases hp : parts3? ((jsSplitDate (jsTrim s)).map jsTrim) with
  | none => rfl
  | some abc =>
    obtain ⟨a, b, c⟩ := abc
    show (match dparse (rebuildIso a b c) with
      | some p => (toISO (some p)).map some
      | none => (.ok none : Except Unit (Option String))) = .ok none
    rw [hsplit a b c hp]

/-- Witness for C2: with a parse oracle that fails on everything, the
unparsable string "13/13/13garbage" normalizes to "no date" without an
exception, and the Excel serial 45000 normalizes to a timestamp. -/
theorem c2_normalize_date_total_witness :
    normalizeDate (fun _ => none) (fun _ => "n") (.str "13/13/13garbage") = .ok none ∧
    ∃ r : Option String,
      normalizeDate (fun _ => none) (fun _ => "n") (.num 45000) = .ok r :=
  ⟨(c2_normalize_date_total (fun _ => none) (fun _ => "n") (.str "13/13/13garbage")).2
      "13/13/13garbage" rfl (by decide) rfl (fun a b c _ => rfl),
   (c2_normalize_date_total (fun _ => none) (fun _ => "n") (.num 45000)).1⟩

/-! ## C7 — `handleFile` atomicity (EventsVerified.tsx lines 233–271 and
UploadFrameworkTable.tsx lines 207–297)

Both handlers wrap the whole import in `try { ... } catch { alert(...) }`:
`XLSX.read` throwing on an undecodable buffer reaches the catch before any
state write.  The decode result is passed in as an `Except`; the commit
paths below reproduce the successful import so that the error path is
checked against the real state shape.  The only step of the events commit
that could raise at all is `normalizeDate`'s `toISOString` (threaded through
`Except`), and it is proved never to do so. -/

/-- Embed the sheet-cell universe into `normalizeDate`'s input. -/
def cellOfJVal : JVal → CellVal
  | .str s => .str s
  | .num q => .num q
  | .boolv b => .boolv b
  | .nullv => .nullv
  | .undefv => .undefv

/-- JS truthiness of a cell value. -/
def jvalTruthy : JVal → Bool
  | .str s => s ≠ ""
  | .num q => q ≠ 0
  | .boolv b => b
  | .nullv => false
  | .undefv => false

/-- `String(v)` for a cell value (`numStr` is the JS number formatter).
The typed row model coerces heterogeneous cells to their string rendering. -/
def cellText (numStr : ℚ → String) : JVal → String
  | .str s => s
  | .num q => numStr q
  | .boolv true => "true"
  | .boolv false => "false"
  | .nullv => "null"
  | .undefv => "undefined"

/-- `val ?? ""` followed by the string coercion of the typed model. -/
def textOf (numStr : ℚ → String) : Option JVal → String
  | some v => cellText numStr v
  | none => ""

/-- `h.toLowerCase().replace(/\s+/g, "")` — the header-key normalization of
the events page `lookup`. -/
def stripWsLower (s : String) : String :=
  ⟨(s.data.map Char.toLower).filter (fun c => !jsWs c)⟩

/-- The events-page `lookup`: first key list entry whose normalized form
matches a normalized header of the row wins. -/
def lookupCell (row : List (String × JVal)) (keys : List String) : Option JVal :=
  keys.findSome? (fun k =>
    (row.find? (fun p => stripWsLower p.1 == stripWsLower k)).map Prod.snd)

def srOf (row : List (String × JVal)) : Option JVal :=
  (lookupCell row ["srno", "sno", "srno.", "sr no", "sr no."]).orElse
    (fun _ => lookupCell row ["sr", "no", "s.no"])

def companyOf (row : List (String × JVal)) : Option JVal :=
  (lookupCell row ["nameofcompany", "company", "nameofcompany"]).orElse
    (fun _ => lookupCell row ["companyname"])

def panOf (row : List (String × JVal)) : Option JVal :=
  lookupCell row ["companypan", "pan"]

def changeOf (row : List (String × JVal)) : Option JVal :=
  lookupCell row ["changereported", "change", "event", "eventname"]

def descOf (row : List (String × JVal)) : Option JVal :=
  lookupCell row ["description", "details", "desc"]

def eventDateRawOf (row : List (String × JVal)) : JVal :=
  (lookupCell row ["eventdate", "eventdate ", "event date", "date"]).getD (.str "")

def identDateRawOf (row : List (String × JVal)) : JVal :=
  (lookupCell row ["eventidentificationdate", "identificationdate",
    "event identification date", "identdate"]).getD (.str "")

def flagOf (row : List (String × JVal)) : Option JVal :=
  lookupCell row ["flag", "status", "rfi", "color"]

def rbiOf (row : List (String × JVal)) : Option JVal :=
  lookupCell row ["rbitrigger", "rbi trigger", "rbi", "trigger"]

/-- `(flag ?? "") ? String(flag).trim() : ""`. -/
def flagTextOf (numStr : ℚ → String) (row : List (String × JVal)) : String :=
  match flagOf row with
  | some v => if jvalTruthy v then jsTrim (cellText numStr v) else ""
  | none => ""

/-- `mapRowToEvent` (EventsVerified.tsx lines 166–230): normalize one raw
sheet row into an `EventRow`, running the fuzzy classification on the
reported-change text.  `search` is the Fuse oracle, `lid` the fresh local
id. -/
def mapRowToEvent (dparse : String → Option Int) (numStr : ℚ → String)
    (search : String → List (EwsRule × Option ℚ)) (lid : Nat)
    (sheet : SheetType) (row : List (String × JVal)) : Except Unit EventRow :=
  let changeText := textOf numStr (changeOf row)
  match normalizeDate dparse numStr (cellOfJVal (eventDateRawOf row)) with
  | .error e => .error e
  | .ok ed =>
    match normalizeDate dparse numStr (cellOfJVal (identDateRawOf row)) with
    | .error e => .error e
    | .ok idd =>
      let mf := classifyTopMatch (search changeText) changeText
      .ok { localId := lid, saved := false, sheetType := sheet,
            sr_no := (srOf row).getD (.str ""),
            company := textOf numStr (companyOf row),
            company_pan := textOf numStr (panOf row),
            change_reported := changeText,
            description := textOf numStr (descOf row),
            event_date := ed, identification_date := idd,
            flag := flagTextOf numStr row,
            rbi_trigger := textOf numStr (rbiOf row),
            matchedRule := mf.matchedRule, matchStatus := mf.matchStatus,
            score := mf.score, event_raw := row }

/-- `jsonXxx.map((r) => mapRowToEvent(r, sheet))`, fresh ids in order. -/
def mapSheetE (dparse : String → Option Int) (numStr : ℚ → String)
    (search : String → List (EwsRule × Option ℚ)) (lid : Nat) (sheet : SheetType) :
    List (List (String × JVal)) → Except Unit (List EventRow)
  | [] => .ok []
  | r :: rest =>
    match mapRowToEvent dparse numStr search lid sheet r with
    | .error e => .error e
    | .ok ev =>
      match mapSheetE dparse numStr search (lid + 1) sheet rest with
      | .error e => .error e
      | .ok evs => .ok (ev :: evs)

/-- The events-page state touched by its `handleFile`. -/
structure EventsState where
  newRows : List EventRow
  oldRows : List EventRow
  rawHeadersNew : List String
  rawHeadersOld : List String
  page : Nat
  importResult : Option String
  draft : Option (List EventRow × List EventRow)

/-- A decoded workbook: the per-sheet `sheet_to_json` output in sheet
order. -/
structure EWorkbook where
  sheets : List (List (List (String × JVal)))

/-- The alert text both handlers show on a decode failure. -/
def parseFailMsg : String := "Failed to parse uploaded file. Ensure XLS/XLSX/CSV."

/-- The events-page `handleFile`: `.error` models `XLSX.read` (or a later
step) throwing into the `catch`; on the two-sheet success path the first
sheet commits before the second is examined, exactly as in the source. -/
def handleFileEvents (dparse : String → Option Int) (numStr : ℚ → String)
    (search : String → List (EwsRule × Option ℚ)) (nextId : Nat)
    (read : Except Unit EWorkbook) (st : EventsState) : EventsState × Option String :=
  match read with
  | .error _ => (st, some parseFailMsg)
  | .ok wb =>
    let jsonNew := (wb.sheets.head?).getD []
    let headersNew := (jsonNew.head?.map (fun r => r.map Prod.fst)).getD []
    match mapSheetE dparse numStr search nextId SheetType.newSheet jsonNew with
    | .error _ => (st, some parseFailMsg)
    | .ok newMapped =>
      let merged := st.newRows ++ newMapped
      let st1 := { st with
                   rawHeadersNew := headersNew, newRows := merged,
                   draft := some (merged, []) }
      if 1 < wb.sheets.length then
        let jsonOld := (wb.sheets[1]?).getD []
        let headersOld := (jsonOld.head?.map (fun r => r.map Prod.fst)).getD []
        match mapSheetE dparse numStr search (nextId + jsonNew.length)
            SheetType.oldSheet jsonOld with
        | .error _ => (st1, some parseFailMsg)
        | .ok oldMapped =>
          let mergedOld := st1.oldRows ++ oldMapped
          ({ st1 with
              rawHeadersOld := headersOld, oldRows := mergedOld,
              draft := some (newMapped, mergedOld), page := 1,
              importResult := none }, none)
      else ({ st1 with page := 1, importResult := none }, none)

/-! The rules-table `handleFile` commit. -/

/-- Insert-or-overwrite of a JS object property, keeping key order. -/
def setKey (acc : List (String × JVal)) (k : String) (v : JVal) :
    List (String × JVal) :=
  if acc.any (fun p => p.1 == k) then
    acc.map (fun p => if p.1 == k then (k, v) else p)
  else acc ++ [(k, v)]

/-- `out[cleanHeader(k)] = v` over one raw row. -/
def cleanRow (row : List (String × JVal)) : List (String × JVal) :=
  row.foldl (fun acc p => setKey acc (jsTrim p.1) p.2) []

/-- `Set` insertion order with duplicates dropped. -/
def dedupStr (l : List String) : List String :=
  l.foldl (fun acc s => if acc.any (fun t => t == s) then acc else acc ++ [s]) []

/-- JS `Number(v)` (`none` = NaN); `strNum` decides string coercion. -/
def jsNumber (strNum : String → Option ℚ) : JVal → Option ℚ
  | .num q => some q
  | .str s => strNum s
  | .boolv true => some 1
  | .boolv false => some 0
  | .nullv => some 0
  | .undefv => none

/-- Severity cell after `normalizeSeverity`, coerced by the typed model
(non-strings render as the blank default). -/
def sevTextOf : Option JVal → String
  | some v =>
    match normalizeSeverity v with
    | .str t => t
    | _ => ""
  | none => ""

/-- Tags cell: a string is split on commas; in the typed model a missing or
non-string cell is the empty tag list. -/
def tagsOf : Option JVal → List String
  | some (.str s) => splitTags s
  | some _ => []
  | none => []

/-- One uploaded rules row (UploadFrameworkTable.tsx lines 264–282): fields
drawn through the inferred mapping, severity/tags/turnaround coerced, the
rule code minted from the pre-upload rows (the stale `rows` closure) with
the threaded counter. -/
def buildRuleRow (numStr : ℚ → String) (strNum : String → Option ℚ)
    (mapping : String → Option String) (stalePrev : List EditableRow)
    (counter lid : Nat) (r : List (String × JVal)) : EditableRow × Nat :=
  let getVal (k : String) : Option JVal :=
    (mapping k).bind (fun col => (r.find? (fun p => p.1 == col)).map Prod.snd)
  let gen := generateRuleCode stalePrev counter
  ({ localId := lid, serverId := none,
     rule_code := gen.1,
     change_reported := textOf numStr (getVal "change_reported"),
     condition := textOf numStr (getVal "condition"),
     severity := sevTextOf (getVal "severity"),
     primary_action := textOf numStr (getVal "primary_action"),
     secondary_action := textOf numStr (getVal "secondary_action"),
     tat_days := jsNumber strNum ((getVal "tat_days").getD .undefv),
     assigned_team := textOf numStr (getVal "assigned_team"),
     tags := tagsOf (getVal "tags"),
     errors := [] }, gen.2)

/-- `cleaned.map(buildRow)` threading the rule-code counter and id supply. -/
def buildRuleRows (numStr : ℚ → String) (strNum : String → Option ℚ)
    (mapping : String → Option String) (stalePrev : List EditableRow)
    (counter lid : Nat) :
    List (List (String × JVal)) → List EditableRow × Nat
  | [] => ([], counter)
  | r :: rest =>
    let hd := buildRuleRow numStr strNum mapping stalePrev counter lid r
    let tl := buildRuleRows numStr strNum mapping stalePrev hd.2 (lid + 1) rest
    (hd.1 :: tl.1, tl.2)

/-- The rules-page state touched by its `handleFile`. -/
structure RulesPageState where
  rawHeaders : List String
  rawRows : List (List (String × JVal))
  rows : List EditableRow
  mapping : String → Option String
  draft : Option Draft
  counter : Nat
  nextLocal : Nat

/-- The decoded first sheet of the rules upload: the `sheet_to_json` rows
and the literal first row used by the headerless fallback (empty when the
sheet has no `!ref`). -/
structure RulesSheetInput where
  json : List (List (String × JVal))
  firstRow : List String

/-- The rules-table `handleFile`: decode failure reaches the catch before
any state write; on success headers are discovered (with the headerless
fallback), rows cleaned, the mapping inferred, rows built and appended, and
the draft key overwritten. -/
def handleFileRules (numStr : ℚ → String) (strNum : String → Option ℚ)
    (read : Except Unit RulesSheetInput) (st : RulesPageState) :
    RulesPageState × Option String :=
  match read with
  | .error _ => (st, some parseFailMsg)
  | .ok input =>
    let rawKeys := ((input.json.head?.map (fun r => r.map Prod.fst)).getD [])
    let fromKeys := dedupStr (rawKeys.map jsTrim)
    let headers :=
      if fromKeys.isEmpty then dedupStr (input.firstRow.map jsTrim) else fromKeys
    let cleaned := input.json.map cleanRow
    let shownHeaders :=
      if headers.isEmpty then (cleaned.head?.getD []).map Prod.fst else headers
    let mapping := initialMap headers
    let builtC := buildRuleRows numStr strNum mapping st.rows st.counter
      st.nextLocal cleaned
    let combined := st.rows ++ builtC.1
    ({ rawHeaders := shownHeaders, rawRows := cleaned, rows := combined,
       mapping := mapping, draft := some ⟨headers, combined⟩,
       counter := builtC.2, nextLocal := st.nextLocal + cleaned.length }, none)

theorem mapRowToEvent_ok (dparse : String → Option Int) (numStr : ℚ → String)
    (search : String → List (EwsRule × Option ℚ)) (lid : Nat) (sheet : SheetType)
    (row : List (String × JVal)) :
    ∃ ev, mapRowToEvent dparse numStr search lid sheet row = .ok ev := by
  rw [mapRowToEvent]
  obtain ⟨r1, h1⟩ := normalizeDate_ok dparse numStr (cellOfJVal (eventDateRawOf row))
  obtain ⟨r2, h2⟩ := normalizeDate_ok dparse numStr (cellOfJVal (identDateRawOf row))
  rw [h1, h2]
  exact ⟨_, rfl⟩

theorem mapSheetE_ok (dparse : String → Option Int) (numStr : ℚ → String)
    (search : String → List (EwsRule × Option ℚ)) (lid : Nat) (sheet : SheetType)
    (rows : List (List (String × JVal))) :
    ∃ evs, mapSheetE dparse numStr search lid sheet rows = .ok evs := by
  induction rows generalizing lid with
  | nil => exact ⟨[], rfl⟩
  | cons r rest ih =>
    obtain ⟨ev, hev⟩ := mapRowToEvent_ok dparse numStr search lid sheet r
    obtain ⟨evs, hevs⟩ := ih (lid + 1)
    refine ⟨ev :: evs, ?_⟩
    rw [mapSheetE, hev, hevs]

/-- C7.  If the uploaded buffer cannot be decoded (or the import raises
before any commit), both file-import handlers report the failure and leave
every piece of prior table state — rows of both sheet partitions, headers,
mapping, drafts, counters — exactly as it was: the returned state is the
incoming state.  Moreover no later step of the events import can raise once
decoding succeeded: the per-sheet row mapping (the only `Except`-valued
step, via date normalization) always returns `.ok`, and the rules-table
commit is a total pure function by construction. -/
theorem c7_parse_failure_atomic (dparse : String → Option Int) (numStr : ℚ → String)
    (strNum : String → Option ℚ) (search : String → List (EwsRule × Option ℚ))
    (nextId : Nat) (e : Unit) (stE : EventsState) (stR : RulesPageState) :
    (handleFileEvents dparse numStr search nextId (.error e) stE =
      (stE, some parseFailMsg)) ∧
    (handleFileRules numStr strNum (.error e) stR = (stR, some parseFailMsg)) ∧
    (∀ lid sheet rows,
      ∃ evs, mapSheetE dparse numStr search lid sheet rows = .ok evs) :=
  ⟨rfl, rfl, fun lid sheet rows => mapSheetE_ok dparse numStr search lid sheet rows⟩

end EWS
